import Mathlib

/-!
Shallow embedding of the DailyAsmaBot Telegram bot core (the delivery
scheduler and per-subscriber progress engine) and proofs about it.

The source is a single Node.js program.  Strings are modelled as lists of
characters, timestamps as natural numbers, the persisted progress object as
an association list keyed by the stringified chat id, and every outbound
send (which in the source is an awaited call that may throw) as a boolean
oracle supplied by an environment record.  Functions that may throw return
a success flag next to the trace of observable events they produced before
returning or throwing.
-/

namespace DailyAsmaBot

/-- Transmit hard cap for one message, from the source constant. -/
def MAX_MESSAGE_LENGTH : Nat := 4096

/-- Number of lesson audio files assumed available, from the source constant. -/
def TOTAL_AUDIO_FILES : Nat := 100

/-- Number of lesson image files assumed available, from the source constant. -/
def TOTAL_IMAGE_FILES : Nat := 99

/-- Whitespace as removed by the JavaScript trim on the character classes the
lessons actually contain (space, tab, newline, carriage return, vertical tab,
form feed). -/
def isJsSpace (c : Char) : Bool :=
  c = ' ' || c = '\t' || c = '\n' || c = '\r' || c = '\x0b' || c = '\x0c'

/-- Trim of a character list at both ends, as the JavaScript trim does. -/
def jsTrim (s : List Char) : List Char :=
  ((s.dropWhile isJsSpace).reverse.dropWhile isJsSpace).reverse

/-- Last index p with p less or equal fromIdx holding character c, searching
backwards, as the JavaScript lastIndexOf with a fromIndex argument does. -/
def jsLastIndexOf (s : List Char) (c : Char) : Nat → Option Nat
  | 0 => if s[0]? = some c then some 0 else none
  | n + 1 => if s[n + 1]? = some c then some (n + 1) else jsLastIndexOf s c n

/-- Candidate split position from one separator character: the source keeps a
found index only when it lies strictly after the segment start, which in
suffix coordinates means the index is positive. -/
def splitByChar (s : List Char) (c : Char) : Option Nat :=
  match jsLastIndexOf s c MAX_MESSAGE_LENGTH with
  | some p => if 0 < p then some p else none
  | none => none

/-- Split position for an over-long remainder: last newline in range, else
last space in range, else a hard cut at the transmit cap. -/
def splitIdx (s : List Char) : Nat :=
  match splitByChar s '\n' with
  | some p => p
  | none =>
    match splitByChar s ' ' with
    | some p => p
    | none => MAX_MESSAGE_LENGTH

/-- One pass of the chunking loop of formatChunks, fuelled so that it is
structurally recursive; fuel at least the length of the remainder suffices
because every iteration consumes at least one character. -/
def chunksGo : Nat → List Char → List (List Char)
  | 0, _ => []
  | fuel + 1, s =>
    if s.length = 0 then []
    else if s.length ≤ MAX_MESSAGE_LENGTH then [jsTrim s]
    else if (jsTrim (s.take (splitIdx s))).isEmpty then
      chunksGo fuel (s.drop (splitIdx s))
    else jsTrim (s.take (splitIdx s)) :: chunksGo fuel (s.drop (splitIdx s))

/-- Chunking loop run with enough fuel for the whole text. -/
def formatChunksAux (s : List Char) : List (List Char) :=
  chunksGo s.length s

/-- formatChunks from the source: the loop above followed by the filter that
drops empty strings (only the final push can produce one). -/
def formatChunks (s : List Char) : List (List Char) :=
  (formatChunksAux s).filter (fun c => !c.isEmpty)

/-- Video metadata entry, aligned to a lesson index. -/
structure VideoMeta where
  title : Option String
  url : String
  deriving DecidableEq

/-- The read-only artifacts handed to the bot: lesson texts and video list
as loaded at startup. -/
structure Assets where
  lessons : List (List Char)
  videos : List VideoMeta
  deriving DecidableEq

/-- Per-subscriber persisted state, from the progress file shape. -/
structure UserState where
  currentLesson : Nat
  lastSentAt : Option Nat
  joinedAt : Nat
  deriving DecidableEq

/-- The users map of the progress object: an association list keyed by the
stringified chat id, in insertion order, keys unique. -/
abbrev Progress := List (String × UserState)

/-- Observable effects: outbound sends and error log lines.  Lesson numbers
are 1-based as in the source messages; chunk events carry the 0-based lesson
index and the chunk position. -/
inductive Event where
  | sentUnavailable (chat : String) (lessonNumber : Nat)
  | sentPhoto (chat : String) (lessonNumber : Nat)
  | logImageError (lessonNumber : Nat)
  | sentChunk (chat : String) (lessonIndex : Nat) (pos : Nat) (chunk : List Char)
  | sentAudioFile (chat : String) (lessonNumber : Nat)
  | logAudioError (lessonNumber : Nat)
  | sentVideo (chat : String) (lessonIndex : Nat)
  | sentCompletion (chat : String)
  | logDeliveryError (chat : String) (lessonNumber : Nat)
  | sentResendNotice (chat : String) (lessonNumber : Nat)
  | sentInvalidRange (chat : String)
  | sentWelcome (chat : String)
  | sentWelcomeBack (chat : String)
  | sentHelp (chat : String)
  deriving DecidableEq

/-- Environment for one run: the clock and, for every outbound call site,
whether that call succeeds (true) or throws (false); for the two filesystem
probes, whether the asset file exists. -/
structure Env where
  now : Nat
  imageExists : Nat → Bool
  imageSendOk : String → Nat → Bool
  chunkSendOk : String → Nat → Nat → Bool
  audioExists : Nat → Bool
  audioSendOk : String → Nat → Bool
  videoSendOk : String → Nat → Bool
  unavailSendOk : String → Nat → Bool
  completionSendOk : String → Bool
  noticeSendOk : String → Nat → Bool
  invalidSendOk : String → Bool
  welcomeSendOk : String → Bool
  welcomeBackSendOk : String → Bool
  helpSendOk : String → Bool

/-- ensureUserState: create the record with currentLesson 0 on first
contact, keep the existing one otherwise. -/
def ensureUser (now : Nat) (p : Progress) (k : String) : Progress :=
  match p.lookup k with
  | some _ => p
  | none => p ++ [(k, ⟨0, none, now⟩)]

/-- In-place update of one user's record, keeping entry order, as assignment
through the object reference does in the source. -/
def setUser (p : Progress) (k : String) (s : UserState) : Progress :=
  p.map (fun e => if e.1 = k then (k, s) else e)

/-- The two assignment lines run after a successful sendLessonAssets call:
currentLesson becomes min (deliveredLessonIndex + 1) totalLessons and
lastSentAt becomes the current time. -/
def advance (A : Assets) (now : Nat) (p : Progress) (k : String)
    (deliveredLessonIndex : Nat) : Progress :=
  match p.lookup k with
  | some st =>
    setUser p k
      { st with
        currentLesson := min (deliveredLessonIndex + 1) A.lessons.length
        lastSentAt := some now }
  | none => p

/-- The for-loop over message chunks: send each in order, stopping at (and
propagating) the first failed send. -/
def sendChunks (env : Env) (chat : String) (lessonIndex : Nat) :
    List (List Char) → Nat → List Event × Bool
  | [], _ => ([], true)
  | c :: cs, pos =>
    if env.chunkSendOk chat lessonIndex pos then
      let r := sendChunks env chat lessonIndex cs (pos + 1)
      (Event.sentChunk chat lessonIndex pos c :: r.1, r.2)
    else ([], false)

/-- sendLessonAssets: unavailability notice for a falsy lesson text, then
image (own try/catch, missing file silent, transport failure logged), then
the text chunks (not guarded: a failure throws out of the function), then
audio (own try/catch like the image), then the video link message (not
guarded: a failure throws out of the function).  The boolean is false when
the function throws.  The chat reference on the wire goes through
normalizeChatId in the source; state and events here use the string key. -/
def sendLessonAssets (A : Assets) (env : Env) (chat : String)
    (lessonIndex : Nat) : List Event × Bool :=
  let lessonNumber := lessonIndex + 1
  let lessonText := A.lessons.getD lessonIndex []
  if lessonText.isEmpty then
    if env.unavailSendOk chat lessonNumber then
      ([Event.sentUnavailable chat lessonNumber], true)
    else ([], false)
  else
    let imgEvs :=
      if env.imageExists lessonNumber then
        if env.imageSendOk chat lessonNumber then [Event.sentPhoto chat lessonNumber]
        else [Event.logImageError lessonNumber]
      else []
    let cr := sendChunks env chat lessonIndex (formatChunks lessonText) 0
    if cr.2 then
      let audEvs :=
        if env.audioExists lessonNumber then
          if env.audioSendOk chat lessonNumber then [Event.sentAudioFile chat lessonNumber]
          else [Event.logAudioError lessonNumber]
        else []
      match A.videos[lessonIndex]? with
      | some _ =>
        if env.videoSendOk chat lessonIndex then
          (imgEvs ++ cr.1 ++ audEvs ++ [Event.sentVideo chat lessonIndex], true)
        else (imgEvs ++ cr.1 ++ audEvs, false)
      | none => (imgEvs ++ cr.1 ++ audEvs, true)
    else (imgEvs ++ cr.1, false)

/-- sendLessonToUser: ensure the record, handle the past-the-end completion
branch (message first, then state), otherwise attempt the assets and either
advance (success) or log the delivery error and leave state untouched (the
catch block).  The boolean is false only when the completion message throws,
the one uncaught path. -/
def sendLessonToUser (A : Assets) (env : Env) (p : Progress) (k : String)
    (lessonIndex : Nat) : Progress × List Event × Bool :=
  let p1 := ensureUser env.now p k
  if A.lessons.length ≤ lessonIndex then
    if env.completionSendOk k then
      match p1.lookup k with
      | some st =>
        (setUser p1 k { st with currentLesson := A.lessons.length },
         [Event.sentCompletion k], true)
      | none => (p1, [Event.sentCompletion k], true)
    else (p1, [], false)
  else
    let r := sendLessonAssets A env k lessonIndex
    if r.2 then (advance A env.now p1 k lessonIndex, r.1, true)
    else (p1, r.1 ++ [Event.logDeliveryError k (lessonIndex + 1)], true)

/-- The for-loop of deliverDailyLessons over the snapshot of user keys: skip
malformed or completed records, deliver to the rest sequentially; an
uncaught throw from sendLessonToUser would abort the remainder of the loop. -/
def processUsers (A : Assets) (env : Env) : Progress → List String → Progress × List Event
  | p, [] => (p, [])
  | p, k :: ks =>
    match p.lookup k with
    | none => processUsers A env p ks
    | some st =>
      if A.lessons.length ≤ st.currentLesson then processUsers A env p ks
      else
        let r := sendLessonToUser A env p k st.currentLesson
        if r.2.2 then
          let r2 := processUsers A env r.1 ks
          (r2.1, r.2.1 ++ r2.2)
        else (r.1, r.2.1)

/-- deliverDailyLessons: one scheduled tick, iterating the entries snapshot
of the users map. -/
def deliverDailyLessons (A : Assets) (env : Env) (p : Progress) : Progress × List Event :=
  processUsers A env p (p.map Prod.fst)

/-- Handler of the on-demand lesson command with a parsed 1-based number:
range check with a user-visible error, then a notice and the assets of
lesson number minus one; the progress map is never touched. -/
def onLessonCommand (A : Assets) (env : Env) (p : Progress) (chat : String)
    (n : Nat) : Progress × List Event :=
  if n < 1 ∨ A.lessons.length < n then
    (p, if env.invalidSendOk chat then [Event.sentInvalidRange chat] else [])
  else if env.noticeSendOk chat n then
    (p, Event.sentResendNotice chat n :: (sendLessonAssets A env chat (n - 1)).1)
  else (p, [])

/-- Handler of the registration command: on first contact create and persist
the record, send the welcome, deliver lesson 0, send the help text; on a
repeat contact only report back, leaving state unchanged. -/
def onStartCommand (A : Assets) (env : Env) (p : Progress) (chat : String) :
    Progress × List Event :=
  match p.lookup chat with
  | none =>
    let p1 := ensureUser env.now p chat
    if env.welcomeSendOk chat then
      let r := sendLessonToUser A env p1 chat 0
      if r.2.2 then
        (r.1, Event.sentWelcome chat :: r.2.1 ++
          (if env.helpSendOk chat then [Event.sentHelp chat] else []))
      else (r.1, Event.sentWelcome chat :: r.2.1)
    else (p1, [])
  | some _ =>
    if env.welcomeBackSendOk chat then
      (p, Event.sentWelcomeBack chat ::
        (if env.helpSendOk chat then [Event.sentHelp chat] else []))
    else (p, [])

/-- JSON values, as JSON.parse can produce them. -/
inductive Json where
  | null
  | bool (b : Bool)
  | num (n : Int)
  | str (s : String)
  | arr (xs : List Json)
  | obj (fields : List (String × Json))

/-- State of the persisted progress file on disk at startup. -/
inductive FileState where
  | absent
  | unparsable
  | parsed (j : Json)

/-- readJsonFile applied to the progress path: the fallback object with an
empty users map when the file is absent, the parse error rethrown when the
contents are not JSON, the parsed document otherwise. -/
def readProgressFile : FileState → Except String Json
  | .absent => .ok (Json.obj [("users", Json.obj [])])
  | .unparsable => .error "SyntaxError: Unexpected token"
  | .parsed j => .ok j

/-- Truthiness of the users field combined with the typeof object test the
source applies to it: only objects and arrays pass (null is falsy). -/
def keepUsers : Json → Bool
  | .obj _ => true
  | .arr _ => true
  | _ => false

/-- Startup handling of the progress file: read with fallback, reject a
document that is not a non-null non-array object, then keep the users field
when it passes the truthiness and typeof tests and replace it by an empty
object otherwise.  The result is the users value the process runs with. -/
def startupProgress (fs : FileState) : Except String Json :=
  match readProgressFile fs with
  | .error e => .error e
  | .ok j =>
    match j with
    | .obj fields =>
      let u := ((fields.lookup "users").getD Json.null)
      .ok (if keepUsers u then u else Json.obj [])
    | _ => .error "Corrupted progress file"

/-- Whether startup halts for a given file state, read off the embedded
startup computation. -/
def haltsAtStartup (fs : FileState) : Bool :=
  match startupProgress fs with
  | .error _ => true
  | .ok _ => false

/-- Modelled from the spec words of the amended claim, for comparison with
the source behaviour: startup halts exactly when the file exists and its
contents are not a JSON object document. -/
def shouldHalt : FileState → Bool
  | .absent => false
  | .unparsable => true
  | .parsed (Json.obj _) => false
  | .parsed _ => true

/-- loadLessons applied to an already-parsed lesson array: keep at most
min TOTAL_IMAGE_FILES TOTAL_AUDIO_FILES entries and fail when nothing is
left. -/
def loadLessons (data : List (List Char)) : Except String (List (List Char)) :=
  let limited := data.take (min TOTAL_IMAGE_FILES (min TOTAL_AUDIO_FILES data.length))
  if limited.isEmpty then .error "No lessons found"
  else .ok limited

/-- A chunk list reassembles a text when the text is exactly the chunks in
order, separated and surrounded by all-whitespace runs (the material the
trims at the cut points removed). -/
inductive Reassembles : List (List Char) → List Char → Prop where
  | nil (w : List Char) (hw : ∀ c ∈ w, isJsSpace c = true) : Reassembles [] w
  | cons (seg : List Char) (segs : List (List Char)) (w rest : List Char)
      (hw : ∀ c ∈ w, isJsSpace c = true) (hseg : seg ≠ [])
      (htail : Reassembles segs rest) : Reassembles (seg :: segs) (w ++ (seg ++ rest))

/-- The subscriber-record invariant: every stored currentLesson is at most
the number of loaded lessons. -/
def InvNLE (A : Assets) (p : Progress) : Prop :=
  ∀ e ∈ p, e.2.currentLesson ≤ A.lessons.length

/-- Environment in which every outbound call succeeds and no optional asset
file exists on disk. -/
def envBase (t : Nat) : Env where
  now := t
  imageExists := fun _ => false
  imageSendOk := fun _ _ => true
  chunkSendOk := fun _ _ _ => true
  audioExists := fun _ => false
  audioSendOk := fun _ _ => true
  videoSendOk := fun _ _ => true
  unavailSendOk := fun _ _ => true
  completionSendOk := fun _ => true
  noticeSendOk := fun _ _ => true
  invalidSendOk := fun _ => true
  welcomeSendOk := fun _ => true
  welcomeBackSendOk := fun _ => true
  helpSendOk := fun _ => true

/-- Environment in which every text-chunk send throws. -/
def envChunkFail (t : Nat) : Env :=
  { envBase t with chunkSendOk := fun _ _ _ => false }

/-- Environment in which the video-link message send throws. -/
def envVideoFail (t : Nat) : Env :=
  { envBase t with videoSendOk := fun _ _ => false }

/-- Environment in which the image and audio files exist but their sends
throw. -/
def envAssetFail (t : Nat) : Env :=
  { envBase t with
    imageExists := fun _ => true
    imageSendOk := fun _ _ => false
    audioExists := fun _ => true
    audioSendOk := fun _ _ => false }

/-- One-lesson curriculum with no videos, for concrete runs. -/
def oneLesson : Assets := ⟨[['a']], []⟩

/-- One-lesson curriculum with one video entry, for concrete runs. -/
def oneLessonOneVideo : Assets := ⟨[['a']], [⟨none, "u"⟩]⟩

/-- Two-lesson curriculum whose second lesson text is empty, for concrete
runs. -/
def emptySecondLesson : Assets := ⟨[['a'], []], []⟩

/-- Ten-lesson curriculum, for concrete runs. -/
def tenLessons : Assets := ⟨List.replicate 10 ['x'], []⟩

lemma jsLastIndexOf_le {s : List Char} {c : Char} :
    ∀ {n p : Nat}, jsLastIndexOf s c n = some p → p ≤ n := by
  intro n
  induction n with
  | zero =>
    intro p h
    simp only [jsLastIndexOf] at h
    split at h
    · simp at h; omega
    · simp at h
  | succ m ih =>
    intro p h
    simp only [jsLastIndexOf] at h
    split at h
    · simp at h; omega
    · exact le_trans (ih h) (by omega)

lemma splitByChar_pos {s : List Char} {c : Char} {p : Nat}
    (h : splitByChar s c = some p) : 0 < p := by
  unfold splitByChar at h
  split at h
  · split at h
    · simp at h; omega
    · simp at h
  · simp at h

lemma splitByChar_le {s : List Char} {c : Char} {p : Nat}
    (h : splitByChar s c = some p) : p ≤ MAX_MESSAGE_LENGTH := by
  unfold splitByChar at h
  split at h
  case _ q hq =>
    split at h
    · simp at h; subst h; exact jsLastIndexOf_le hq
    · simp at h
  · simp at h

lemma splitIdx_pos (s : List Char) : 0 < splitIdx s := by
  unfold splitIdx
  split
  case _ p hp => exact splitByChar_pos hp
  · split
    case _ p hp => exact splitByChar_pos hp
    · unfold MAX_MESSAGE_LENGTH; omega

lemma splitIdx_le (s : List Char) : splitIdx s ≤ MAX_MESSAGE_LENGTH := by
  unfold splitIdx
  split
  case _ p hp => exact splitByChar_le hp
  · split
    case _ p hp => exact splitByChar_le hp
    · exact le_refl _

lemma length_dropWhile_le (p : Char → Bool) (l : List Char) :
    (l.dropWhile p).length ≤ l.length := by
  have h := congrArg List.length (List.takeWhile_append_dropWhile p l)
  simp only [List.length_append] at h
  omega

lemma jsTrim_length_le (s : List Char) : (jsTrim s).length ≤ s.length := by
  unfold jsTrim
  calc ((s.dropWhile isJsSpace).reverse.dropWhile isJsSpace).reverse.length
      = ((s.dropWhile isJsSpace).reverse.dropWhile isJsSpace).length := by
        exact List.length_reverse _
    _ ≤ (s.dropWhile isJsSpace).reverse.length := length_dropWhile_le _ _
    _ = (s.dropWhile isJsSpace).length := List.length_reverse _
    _ ≤ s.length := length_dropWhile_le _ _

lemma jsTrim_decomp (s : List Char) :
    ∃ w1 w2, s = w1 ++ (jsTrim s ++ w2) ∧
      (∀ c ∈ w1, isJsSpace c = true) ∧ (∀ c ∈ w2, isJsSpace c = true) := by
  refine ⟨s.takeWhile isJsSpace,
    (((s.dropWhile isJsSpace).reverse.takeWhile isJsSpace)).reverse, ?_, ?_, ?_⟩
  · have h1 : s = s.takeWhile isJsSpace ++ s.dropWhile isJsSpace :=
      (List.takeWhile_append_dropWhile isJsSpace s).symm
    have h2 : (s.dropWhile isJsSpace).reverse =
        (s.dropWhile isJsSpace).reverse.takeWhile isJsSpace ++
        (s.dropWhile isJsSpace).reverse.dropWhile isJsSpace :=
      (List.takeWhile_append_dropWhile isJsSpace _).symm
    have h3 : s.dropWhile isJsSpace =
        jsTrim s ++ ((s.dropWhile isJsSpace).reverse.takeWhile isJsSpace).reverse := by
      have h4 := congrArg List.reverse h2
      rw [List.reverse_reverse, List.reverse_append] at h4
      exact h4
    calc s = s.takeWhile isJsSpace ++ s.dropWhile isJsSpace := h1
      _ = s.takeWhile isJsSpace ++
          (jsTrim s ++ ((s.dropWhile isJsSpace).reverse.takeWhile isJsSpace).reverse) := by
            rw [← h3]
  · intro c hc
    exact List.mem_takeWhile_imp hc
  · intro c hc
    rw [List.mem_reverse] at hc
    exact List.mem_takeWhile_imp hc

lemma jsTrim_of_allspace {s : List Char} (h : ∀ c ∈ s, isJsSpace c = true) :
    jsTrim s = [] := by
  have h1 : s.dropWhile isJsSpace = [] := List.dropWhile_eq_nil_iff.mpr h
  simp [jsTrim, h1]

lemma allspace_append {w1 w2 : List Char} (h1 : ∀ c ∈ w1, isJsSpace c = true)
    (h2 : ∀ c ∈ w2, isJsSpace c = true) : ∀ c ∈ w1 ++ w2, isJsSpace c = true := by
  intro c hc
  rcases List.mem_append.mp hc with h | h
  · exact h1 c h
  · exact h2 c h

lemma Reassembles.prepend {cs : List (List Char)} {r w : List Char}
    (hw : ∀ c ∈ w, isJsSpace c = true) (h : Reassembles cs r) :
    Reassembles cs (w ++ r) :=
  match cs, r, h with
  | _, _, .nil wb hwb => .nil (w ++ wb) (allspace_append hw hwb)
  | _, _, .cons seg segs wb rest hwb hseg htail =>
    (List.append_assoc w wb (seg ++ rest)) ▸
      Reassembles.cons seg segs (w ++ wb) rest (allspace_append hw hwb) hseg htail

lemma reassembles_cons_trim (u rest : List Char) (cs : List (List Char))
    (hseg : jsTrim u ≠ []) (h : Reassembles cs rest) :
    Reassembles (jsTrim u :: cs) (u ++ rest) := by
  obtain ⟨w1, w2, hdec, hw1, hw2⟩ := jsTrim_decomp u
  nth_rewrite 2 [hdec]
  rw [List.append_assoc, List.append_assoc]
  exact Reassembles.cons (jsTrim u) cs w1 (w2 ++ rest) hw1 hseg (h.prepend hw2)

lemma reassembles_allspace_prefix (u rest : List Char) (cs : List (List Char))
    (hemp : jsTrim u = []) (h : Reassembles cs rest) :
    Reassembles cs (u ++ rest) := by
  obtain ⟨w1, w2, hdec, hw1, hw2⟩ := jsTrim_decomp u
  rw [hemp, List.nil_append] at hdec
  rw [hdec, List.append_assoc]
  exact (h.prepend hw2).prepend hw1

lemma chunksGo_reassembles :
    ∀ (fuel : Nat) (s : List Char), s.length ≤ fuel →
      Reassembles ((chunksGo fuel s).filter (fun c => !c.isEmpty)) s := by
  intro fuel
  induction fuel with
  | zero =>
    intro s hs
    have : s = [] := List.length_eq_zero.mp (by omega)
    subst this
    exact Reassembles.nil [] (by simp)
  | succ m ih =>
    intro s hs
    by_cases h0 : s.length = 0
    · have h1 : s = [] := List.length_eq_zero.mp h0
      subst h1
      simp only [chunksGo, List.length_nil]
      exact Reassembles.nil [] (by simp)
    · by_cases hsmall : s.length ≤ MAX_MESSAGE_LENGTH
      · rw [chunksGo, if_neg h0, if_pos hsmall]
        cases he : (jsTrim s).isEmpty with
        | true =>
          have hnil : jsTrim s = [] := by
            rwa [List.isEmpty_iff] at he
          simp only [List.filter_cons, List.filter_nil, he, Bool.not_true,
            Bool.false_eq_true, if_false]
          have h2 := reassembles_allspace_prefix s [] [] hnil
            (Reassembles.nil [] (by simp))
          simpa using h2
        | false =>
          have hne : jsTrim s ≠ [] := by
            intro hc
            rw [hc] at he
            simp at he
          simp only [List.filter_cons, List.filter_nil, he, Bool.not_false, if_true]
          have h2 := reassembles_cons_trim s [] [] hne (Reassembles.nil [] (by simp))
          simpa using h2
      · rw [chunksGo, if_neg h0, if_neg hsmall]
        have hq1 : 0 < splitIdx s := splitIdx_pos s
        have hdrop : (s.drop (splitIdx s)).length ≤ m := by
          rw [List.length_drop]; omega
        have ihd := ih (s.drop (splitIdx s)) hdrop
        cases he : (jsTrim (s.take (splitIdx s))).isEmpty with
        | true =>
          rw [if_pos rfl]
          have hnil : jsTrim (s.take (splitIdx s)) = [] := by
            rwa [List.isEmpty_iff] at he
          have h2 := reassembles_allspace_prefix (s.take (splitIdx s))
            (s.drop (splitIdx s)) _ hnil ihd
          rwa [List.take_append_drop] at h2
        | false =>
          rw [if_neg (by simp)]
          rw [List.filter_cons]
          simp only [he, Bool.not_false, if_true]
          have hne : jsTrim (s.take (splitIdx s)) ≠ [] := by
            intro hc
            rw [hc] at he
            simp at he
          have h2 := reassembles_cons_trim (s.take (splitIdx s))
            (s.drop (splitIdx s)) _ hne ihd
          rwa [List.take_append_drop] at h2

lemma chunksGo_length_le :
    ∀ (fuel : Nat) (s : List Char), ∀ c ∈ chunksGo fuel s, c.length ≤ MAX_MESSAGE_LENGTH := by
  intro fuel
  induction fuel with
  | zero => intro s c hc; simp [chunksGo] at hc
  | succ m ih =>
    intro s c hc
    rw [chunksGo] at hc
    by_cases h0 : s.length = 0
    · rw [if_pos h0] at hc; simp at hc
    · rw [if_neg h0] at hc
      by_cases hsmall : s.length ≤ MAX_MESSAGE_LENGTH
      · rw [if_pos hsmall] at hc
        simp at hc
        subst hc
        exact le_trans (jsTrim_length_le s) hsmall
      · rw [if_neg hsmall] at hc
        by_cases he : (jsTrim (s.take (splitIdx s))).isEmpty
        · rw [if_pos he] at hc
          exact ih _ c hc
        · rw [if_neg he] at hc
          rcases List.mem_cons.mp hc with h | h
          · subst h
            calc (jsTrim (s.take (splitIdx s))).length
                ≤ (s.take (splitIdx s)).length := jsTrim_length_le _
              _ ≤ splitIdx s := by rw [List.length_take]; omega
              _ ≤ MAX_MESSAGE_LENGTH := splitIdx_le s
          · exact ih _ c h

lemma chunksGo_allspace :
    ∀ (fuel : Nat) (s : List Char), (∀ c ∈ s, isJsSpace c = true) →
      (chunksGo fuel s).filter (fun c => !c.isEmpty) = [] := by
  intro fuel
  induction fuel with
  | zero => intro s _; simp [chunksGo]
  | succ m ih =>
    intro s hall
    rw [chunksGo]
    by_cases h0 : s.length = 0
    · rw [if_pos h0]; simp
    · rw [if_neg h0]
      by_cases hsmall : s.length ≤ MAX_MESSAGE_LENGTH
      · rw [if_pos hsmall]
        have hnil : jsTrim s = [] := jsTrim_of_allspace hall
        simp [hnil]
      · rw [if_neg hsmall]
        have htake : ∀ c ∈ s.take (splitIdx s), isJsSpace c = true := by
          intro c hc
          exact hall c (List.take_subset _ _ hc)
        have hdropall : ∀ c ∈ s.drop (splitIdx s), isJsSpace c = true := by
          intro c hc
          exact hall c (List.drop_subset _ _ hc)
        have hnil : jsTrim (s.take (splitIdx s)) = [] := jsTrim_of_allspace htake
        rw [if_pos (by rw [hnil]; rfl)]
        exact ih _ hdropall

/-- C5: the chunker returns an ordered sequence of non-empty segments, each
of length at most the transmit limit 4096, whose in-order concatenation
reconstructs the input up to the whitespace removed at the cut points, and
an all-whitespace input or remainder yields no segment. -/
theorem c5_chunker_contract (s : List Char) :
    (∀ c ∈ formatChunks s, c ≠ [] ∧ c.length ≤ MAX_MESSAGE_LENGTH) ∧
    Reassembles (formatChunks s) s ∧
    ((∀ c ∈ s, isJsSpace c = true) → formatChunks s = []) := by
  refine ⟨?_, ?_, ?_⟩
  · intro c hc
    have hmem := List.mem_of_mem_filter hc
    have hprop := List.of_mem_filter hc
    constructor
    · intro hnil
      rw [hnil] at hprop
      simp at hprop
    · exact chunksGo_length_le s.length s c hmem
  · exact chunksGo_reassembles s.length s (le_refl _)
  · intro hall
    exact chunksGo_allspace s.length s hall

/-- Witness for C5 at concrete inputs: a two-character text reassembles from
its single chunk, and an all-whitespace text yields no chunks. -/
theorem c5_chunker_contract_witness :
    Reassembles (formatChunks ['h', 'i']) ['h', 'i'] ∧
    formatChunks [' ', '\n'] = [] :=
  ⟨(c5_chunker_contract ['h', 'i']).2.1,
   (c5_chunker_contract [' ', '\n']).2.2 (by decide)⟩

lemma lookup_cons_self (k : String) (b : UserState) (t : Progress) :
    List.lookup k ((k, b) :: t) = some b := by
  simp [List.lookup]

lemma lookup_cons_ne (k a : String) (hne : (k == a) = false) (b : UserState)
    (t : Progress) : List.lookup k ((a, b) :: t) = List.lookup k t := by
  simp [List.lookup, hne]

lemma setUser_cons (a : String) (b : UserState) (t : Progress) (k : String)
    (s : UserState) :
    setUser ((a, b) :: t) k s = (if a = k then (k, s) else (a, b)) :: setUser t k s := rfl

lemma lookup_append_single_of_none {p : Progress} {k : String} {v : UserState}
    (h : p.lookup k = none) : (p ++ [(k, v)]).lookup k = some v := by
  induction p with
  | nil => simp [List.lookup]
  | cons e t iht =>
    obtain ⟨a, b⟩ := e
    cases hbe : (k == a) with
    | true =>
      rw [show a = k from (eq_of_beq hbe).symm, lookup_cons_self] at h
      exact absurd h (by simp)
    | false =>
      rw [lookup_cons_ne k a hbe] at h
      rw [List.cons_append, lookup_cons_ne k a hbe]
      exact iht h

lemma ensureUser_of_lookup_some {p : Progress} {k : String} {st : UserState}
    (now : Nat) (h : p.lookup k = some st) : ensureUser now p k = p := by
  unfold ensureUser
  rw [h]

lemma lookup_ensureUser_self (now : Nat) (p : Progress) (k : String) :
    (ensureUser now p k).lookup k = some ((p.lookup k).getD ⟨0, none, now⟩) := by
  unfold ensureUser
  cases h : p.lookup k with
  | some st => simp [h]
  | none => simp [lookup_append_single_of_none h]

lemma lookup_setUser_self {p : Progress} {k : String} {st : UserState}
    (h : p.lookup k = some st) (s : UserState) :
    (setUser p k s).lookup k = some s := by
  induction p with
  | nil => simp [List.lookup] at h
  | cons e t iht =>
    obtain ⟨a, b⟩ := e
    by_cases hak : a = k
    · subst hak
      rw [setUser_cons, if_pos rfl, lookup_cons_self]
    · have hke : (k == a) = false := beq_eq_false_iff_ne.mpr (Ne.symm hak)
      rw [lookup_cons_ne k a hke] at h
      rw [setUser_cons, if_neg hak, lookup_cons_ne k a hke]
      exact iht h

lemma mem_setUser {p : Progress} {k : String} {s : UserState} {e : String × UserState}
    (h : e ∈ setUser p k s) : e = (k, s) ∨ e ∈ p := by
  unfold setUser at h
  obtain ⟨a, ha, hfa⟩ := List.mem_map.mp h
  by_cases hk : a.1 = k
  · rw [if_pos hk] at hfa; exact Or.inl hfa.symm
  · rw [if_neg hk] at hfa; exact Or.inr (hfa ▸ ha)

lemma mem_ensureUser {p : Progress} {k : String} {now : Nat} {e : String × UserState}
    (h : e ∈ ensureUser now p k) : e ∈ p ∨ e = (k, ⟨0, none, now⟩) := by
  unfold ensureUser at h
  cases hl : p.lookup k with
  | some st => rw [hl] at h; exact Or.inl h
  | none =>
    rw [hl] at h
    rcases List.mem_append.mp h with h | h
    · exact Or.inl h
    · simp at h; exact Or.inr h

lemma sendChunks_ok (env : Env) (chat : String) (li : Nat) :
    ∀ (cs : List (List Char)) (start : Nat),
      (∀ j, j < cs.length → env.chunkSendOk chat li (start + j) = true) →
      (sendChunks env chat li cs start).2 = true := by
  intro cs
  induction cs with
  | nil => intro start _; rfl
  | cons c t iht =>
    intro start h
    have h0 : env.chunkSendOk chat li start = true := by
      have := h 0 (by simp)
      simpa using this
    simp only [sendChunks, h0, if_true]
    apply iht
    intro j hj
    have := h (j + 1) (by simpa using Nat.succ_lt_succ hj)
    rwa [show start + (j + 1) = start + 1 + j by omega] at this

lemma sendChunks_fail (env : Env) (chat : String) (li : Nat) :
    ∀ (cs : List (List Char)) (start : Nat),
      (∃ j, j < cs.length ∧ env.chunkSendOk chat li (start + j) = false) →
      (sendChunks env chat li cs start).2 = false := by
  intro cs
  induction cs with
  | nil => intro start h; obtain ⟨j, hj, _⟩ := h; simp at hj
  | cons c t iht =>
    intro start h
    obtain ⟨j, hj, hf⟩ := h
    cases h0 : env.chunkSendOk chat li start with
    | false => simp [sendChunks, h0]
    | true =>
      simp only [sendChunks, h0, if_true]
      apply iht
      have hj0 : j ≠ 0 := by
        intro hc
        subst hc
        simp only [Nat.add_zero] at hf
        rw [h0] at hf
        simp at hf
      refine ⟨j - 1, by simp at hj; omega, ?_⟩
      rwa [show start + 1 + (j - 1) = start + j by omega]

lemma formatChunks_nil : formatChunks [] = [] := rfl

lemma onLessonCommand_fst (A : Assets) (env : Env) (p : Progress) (chat : String)
    (n : Nat) : (onLessonCommand A env p chat n).1 = p := by
  unfold onLessonCommand
  split
  · rfl
  · split <;> rfl

lemma sendLessonAssets_chunk_fail (A : Assets) (env : Env) (k : String) (i : Nat)
    (hfail : ∃ j, j < (formatChunks (A.lessons.getD i [])).length ∧
      env.chunkSendOk k i j = false) :
    (sendLessonAssets A env k i).2 = false := by
  have hne : (A.lessons.getD i []).isEmpty = false := by
    obtain ⟨j, hj, _⟩ := hfail
    cases hmt : (A.lessons.getD i []) with
    | nil => rw [hmt, formatChunks_nil] at hj; simp at hj
    | cons c t => rfl
  have hcr : (sendChunks env k i (formatChunks (A.lessons.getD i [])) 0).2 = false := by
    apply sendChunks_fail
    obtain ⟨j, hj, hf⟩ := hfail
    exact ⟨j, hj, by rwa [Nat.zero_add]⟩
  simp only [sendLessonAssets, hne, Bool.false_eq_true, if_false, hcr]

/-- C1: when a text-chunk send fails during a scheduled tick for subscriber
k, the subscriber's record (currentLesson and lastSentAt) is left unchanged,
so k is still due on the next tick; the failure is logged with the
subscriber identity and lesson number, and the scheduler processes the
remaining subscribers of the batch exactly as it would process them from
the unchanged store. -/
theorem c1_primary_failure_isolated (A : Assets) (env : Env) (p : Progress)
    (k : String) (ks : List String) (st : UserState)
    (hlk : p.lookup k = some st)
    (hdue : st.currentLesson < A.lessons.length)
    (hfail : ∃ j, j < (formatChunks (A.lessons.getD st.currentLesson [])).length ∧
      env.chunkSendOk k st.currentLesson j = false) :
    sendLessonToUser A env p k st.currentLesson =
      (p, (sendLessonAssets A env k st.currentLesson).1 ++
        [Event.logDeliveryError k (st.currentLesson + 1)], true) ∧
    processUsers A env p (k :: ks) =
      ((processUsers A env p ks).1,
       ((sendLessonAssets A env k st.currentLesson).1 ++
        [Event.logDeliveryError k (st.currentLesson + 1)]) ++ (processUsers A env p ks).2) := by
  have hassets := sendLessonAssets_chunk_fail A env k st.currentLesson hfail
  have hstu : sendLessonToUser A env p k st.currentLesson =
      (p, (sendLessonAssets A env k st.currentLesson).1 ++
        [Event.logDeliveryError k (st.currentLesson + 1)], true) := by
    have hens := ensureUser_of_lookup_some env.now hlk
    simp only [sendLessonToUser, hens]
    rw [if_neg (by omega), hassets]
    simp
  refine ⟨hstu, ?_⟩
  simp only [processUsers, hlk]
  rw [if_neg (by omega), hstu]
  simp

/-- Witness for C1: a one-lesson curriculum, a due subscriber, and an
environment whose chunk sends fail. -/
theorem c1_primary_failure_isolated_witness :
    sendLessonToUser oneLesson (envChunkFail 5) [("42", ⟨0, none, 0⟩)] "42" 0 =
      ([("42", ⟨0, none, 0⟩)],
       (sendLessonAssets oneLesson (envChunkFail 5) "42" 0).1 ++
         [Event.logDeliveryError "42" 1], true) :=
  (c1_primary_failure_isolated oneLesson (envChunkFail 5) [("42", ⟨0, none, 0⟩)]
    "42" [] ⟨0, none, 0⟩ rfl (by decide) ⟨0, by decide, rfl⟩).1

lemma sendLessonAssets_success_decomp (A : Assets) (env : Env) (k : String)
    (i : Nat)
    (hne : (A.lessons.getD i []).isEmpty = false)
    (hchunks : ∀ j, j < (formatChunks (A.lessons.getD i [])).length →
      env.chunkSendOk k i j = true)
    (hvideo : A.videos[i]? = none ∨ env.videoSendOk k i = true) :
    sendLessonAssets A env k i =
      ((if env.imageExists (i + 1) then
          if env.imageSendOk k (i + 1) then [Event.sentPhoto k (i + 1)]
          else [Event.logImageError (i + 1)]
        else []) ++
       (sendChunks env k i (formatChunks (A.lessons.getD i [])) 0).1 ++
       (if env.audioExists (i + 1) then
          if env.audioSendOk k (i + 1) then [Event.sentAudioFile k (i + 1)]
          else [Event.logAudioError (i + 1)]
        else []) ++
       (match A.videos[i]? with
        | some _ => [Event.sentVideo k i]
        | none => []), true) := by
  have hcr : (sendChunks env k i (formatChunks (A.lessons.getD i [])) 0).2 = true := by
    apply sendChunks_ok
    intro j hj
    have := hchunks j hj
    rwa [Nat.zero_add]
  simp only [sendLessonAssets, hne, Bool.false_eq_true, if_false, hcr, if_true]
  rcases hvideo with hv | hv
  · rw [hv]
    simp
  · cases hvm : A.videos[i]? with
    | none => simp
    | some v => rw [hv]; simp

/-- Counterexample to C2 as stated: all primary text chunks are sent
successfully, but a failure while sending the video link is not caught, so
progress is not advanced (currentLesson stays 0 and lastSentAt stays none
instead of becoming 1 and the current time). -/
theorem c2_video_failure_blocks_advance_cx :
    (sendLessonToUser oneLessonOneVideo (envVideoFail 5) [("42", ⟨0, none, 0⟩)] "42" 0).1 =
      [("42", ⟨0, none, 0⟩)] ∧
    Event.sentChunk "42" 0 0 ['a'] ∈
      (sendLessonToUser oneLessonOneVideo (envVideoFail 5) [("42", ⟨0, none, 0⟩)] "42" 0).2.1 ∧
    Event.logDeliveryError "42" 1 ∈
      (sendLessonToUser oneLessonOneVideo (envVideoFail 5) [("42", ⟨0, none, 0⟩)] "42" 0).2.1 := by
  decide

/-- C2 amended: for a delivery whose primary text chunks all send
successfully and whose video step does not throw (no video entry, or its
send succeeds), an image or audio failure is caught and logged, the
remaining steps still run, the attempt reports success and progress is
advanced to deliveredLessonIndex + 1 (capped at totalLessons); a video-link
send failure, by contrast, is not caught and blocks advancement. -/
theorem c2_asset_failure_amended (A : Assets) (env : Env) (p : Progress)
    (k : String) (i : Nat) (st : UserState)
    (hlk : p.lookup k = some st)
    (hi : i < A.lessons.length)
    (hne : (A.lessons.getD i []).isEmpty = false)
    (hchunks : ∀ j, j < (formatChunks (A.lessons.getD i [])).length →
      env.chunkSendOk k i j = true)
    (hvideo : A.videos[i]? = none ∨ env.videoSendOk k i = true) :
    (sendLessonAssets A env k i).2 = true ∧
    (env.imageExists (i + 1) = true → env.imageSendOk k (i + 1) = false →
      Event.logImageError (i + 1) ∈ (sendLessonAssets A env k i).1) ∧
    (env.audioExists (i + 1) = true → env.audioSendOk k (i + 1) = false →
      Event.logAudioError (i + 1) ∈ (sendLessonAssets A env k i).1) ∧
    (sendLessonToUser A env p k i).1 =
      setUser p k
        { st with currentLesson := min (i + 1) A.lessons.length
                  lastSentAt := some env.now } := by
  have hdec := sendLessonAssets_success_decomp A env k i hne hchunks hvideo
  refine ⟨by rw [hdec], ?_, ?_, ?_⟩
  · intro hie his
    rw [hdec]
    simp [hie, his]
  · intro hae has
    rw [hdec]
    simp [hae, has]
  · have hens := ensureUser_of_lookup_some env.now hlk
    simp only [sendLessonToUser, hens]
    rw [if_neg (by omega)]
    rw [hdec]
    simp only [if_true]
    unfold advance
    rw [hlk]

/-- Witness for the amended C2: image and audio exist but fail to send, the
single text chunk succeeds, there is no video; both failures are logged and
the subscriber is advanced to lesson 1 with lastSentAt updated. -/
theorem c2_asset_failure_amended_witness :
    Event.logImageError 1 ∈ (sendLessonAssets oneLesson (envAssetFail 7) "42" 0).1 ∧
    Event.logAudioError 1 ∈ (sendLessonAssets oneLesson (envAssetFail 7) "42" 0).1 ∧
    (sendLessonToUser oneLesson (envAssetFail 7) [("42", ⟨0, none, 3⟩)] "42" 0).1 =
      [("42", ⟨1, some 7, 3⟩)] := by
  have h := c2_asset_failure_amended oneLesson (envAssetFail 7) [("42", ⟨0, none, 3⟩)]
    "42" 0 ⟨0, none, 3⟩ rfl (by decide) (by decide) (by intro j hj; rfl) (Or.inl rfl)
  refine ⟨h.2.1 rfl rfl, h.2.2.1 rfl rfl, ?_⟩
  rw [h.2.2.2]
  decide

/-- Counterexample to C3 as stated: advance with delivered index 8 sets
currentLesson to 9, and a subsequent advance with the smaller delivered
index 2 regresses it to 3, so advance is not monotonic and does not compute
max (current, deliveredLessonIndex + 1). -/
theorem c3_advance_not_monotonic_cx :
    ((advance tenLessons 1 [("42", ⟨0, none, 0⟩)] "42" 8).lookup "42").map
      (fun st => st.currentLesson) = some 9 ∧
    ((advance tenLessons 2 (advance tenLessons 1 [("42", ⟨0, none, 0⟩)] "42" 8)
        "42" 2).lookup "42").map (fun st => st.currentLesson) = some 3 ∧
    (3 : Nat) < 9 := by
  decide

/-- C3 amended: advance is not monotonic; it unconditionally sets
currentLesson to min (deliveredLessonIndex + 1) totalLessons, ignoring the
stored value, and sets lastSentAt to the current time, so an advance with a
smaller delivered index called after one with a larger index regresses the
subscriber's position. -/
theorem c3_advance_min_amended (A : Assets) (now : Nat) (p : Progress)
    (k : String) (j : Nat) (st : UserState)
    (hlk : p.lookup k = some st) :
    (advance A now p k j).lookup k =
      some { st with currentLesson := min (j + 1) A.lessons.length
                     lastSentAt := some now } := by
  unfold advance
  rw [hlk]
  exact lookup_setUser_self hlk _

/-- Witness for the amended C3 at a concrete store. -/
theorem c3_advance_min_amended_witness :
    (advance tenLessons 4 [("42", ⟨7, none, 0⟩)] "42" 2).lookup "42" =
      some ⟨3, some 4, 0⟩ :=
  c3_advance_min_amended tenLessons 4 [("42", ⟨7, none, 0⟩)] "42" 2 ⟨7, none, 0⟩ rfl

/-- Counterexample to C4 as stated: lesson index 1 of a two-lesson
curriculum has an empty text, so the unavailability message is sent; but on
the scheduled path the Progress Store is still touched, currentLesson
moving from 1 to 2 and lastSentAt from none to the current time. -/
theorem c4_unavailable_advances_cx :
    sendLessonToUser emptySecondLesson (envBase 5) [("7", ⟨1, none, 0⟩)] "7" 1 =
      ([("7", ⟨2, some 5, 0⟩)], [Event.sentUnavailable "7" 2], true) := by
  decide

/-- C4 amended: when no lesson text exists at the requested index, a
user-visible unavailability message is sent and sendLessonAssets returns
normally reporting success; the on-demand command path never touches the
Progress Store, but the scheduled path still advances the subscriber
(currentLesson := lessonIndex + 1 capped at totalLessons, lastSentAt :=
now) because the caller cannot distinguish this outcome from a delivery. -/
theorem c4_unavailable_amended (A : Assets) (env : Env) (p : Progress)
    (k : String) (i : Nat) (st : UserState)
    (hmt : A.lessons.getD i [] = [])
    (hok : env.unavailSendOk k (i + 1) = true)
    (hlk : p.lookup k = some st)
    (hi : i < A.lessons.length) :
    sendLessonAssets A env k i = ([Event.sentUnavailable k (i + 1)], true) ∧
    (∀ n, (onLessonCommand A env p k n).1 = p) ∧
    (sendLessonToUser A env p k i).1 =
      setUser p k
        { st with currentLesson := min (i + 1) A.lessons.length
                  lastSentAt := some env.now } := by
  have hassets : sendLessonAssets A env k i = ([Event.sentUnavailable k (i + 1)], true) := by
    simp only [sendLessonAssets, hmt, List.isEmpty_nil, if_true, hok]
  refine ⟨hassets, fun n => onLessonCommand_fst A env p k n, ?_⟩
  have hens := ensureUser_of_lookup_some env.now hlk
  simp only [sendLessonToUser, hens]
  rw [if_neg (by omega), hassets]
  simp only [if_true]
  unfold advance
  rw [hlk]

/-- Witness for the amended C4 at the concrete two-lesson curriculum with an
empty second lesson text. -/
theorem c4_unavailable_amended_witness :
    sendLessonAssets emptySecondLesson (envBase 5) "7" 1 =
      ([Event.sentUnavailable "7" 2], true) ∧
    (onLessonCommand emptySecondLesson (envBase 5) [("7", ⟨1, none, 0⟩)] "7" 2).1 =
      [("7", ⟨1, none, 0⟩)] ∧
    (sendLessonToUser emptySecondLesson (envBase 5) [("7", ⟨1, none, 0⟩)] "7" 1).1 =
      [("7", ⟨2, some 5, 0⟩)] := by
  have h := c4_unavailable_amended emptySecondLesson (envBase 5) [("7", ⟨1, none, 0⟩)]
    "7" 1 ⟨1, none, 0⟩ rfl rfl rfl (by decide)
  refine ⟨h.1, h.2.1 2, ?_⟩
  rw [h.2.2]
  decide

/-- C8: for a valid 1-based lesson number the resend command delivers the
assets of lesson n-1 and leaves the whole progress map, hence every
subscriber record, completely unchanged; advance is never called. -/
theorem c8_resend_no_advance (A : Assets) (env : Env) (p : Progress)
    (chat : String) (n : Nat) (h1 : 1 ≤ n) (h2 : n ≤ A.lessons.length) :
    (onLessonCommand A env p chat n).1 = p ∧
    (env.noticeSendOk chat n = true →
      (onLessonCommand A env p chat n).2 =
        Event.sentResendNotice chat n :: (sendLessonAssets A env chat (n - 1)).1) := by
  refine ⟨onLessonCommand_fst A env p chat n, ?_⟩
  intro hn
  unfold onLessonCommand
  rw [if_neg (by omega), if_pos hn]

/-- Witness for C8: resending lesson number 1 leaves the stored record
untouched and emits the notice followed by lesson 0's assets. -/
theorem c8_resend_no_advance_witness :
    (onLessonCommand oneLesson (envBase 5) [("42", ⟨2, none, 0⟩)] "42" 1).1 =
      [("42", ⟨2, none, 0⟩)] ∧
    (onLessonCommand oneLesson (envBase 5) [("42", ⟨2, none, 0⟩)] "42" 1).2 =
      Event.sentResendNotice "42" 1 ::
        (sendLessonAssets oneLesson (envBase 5) "42" 0).1 :=
  have h := c8_resend_no_advance oneLesson (envBase 5) [("42", ⟨2, none, 0⟩)]
    "42" 1 (by decide) (by decide)
  ⟨h.1, h.2 rfl⟩

lemma invNLE_setUser {A : Assets} {p : Progress} {k : String} {s : UserState}
    (hInv : InvNLE A p) (hs : s.currentLesson ≤ A.lessons.length) :
    InvNLE A (setUser p k s) := by
  intro e he
  rcases mem_setUser he with h | h
  · rw [h]; exact hs
  · exact hInv e h

lemma invNLE_ensureUser {A : Assets} {p : Progress} {k : String} {now : Nat}
    (hInv : InvNLE A p) : InvNLE A (ensureUser now p k) := by
  intro e he
  rcases mem_ensureUser he with h | h
  · exact hInv e h
  · rw [h]; exact Nat.zero_le _

lemma invNLE_advance {A : Assets} {p : Progress} {k : String} {now i : Nat}
    (hInv : InvNLE A p) : InvNLE A (advance A now p k i) := by
  unfold advance
  cases hl : p.lookup k with
  | none => exact hInv
  | some st => exact invNLE_setUser hInv (min_le_right _ _)

lemma invNLE_sendLessonToUser {A : Assets} {env : Env} {p : Progress}
    {k : String} {i : Nat} (hInv : InvNLE A p) :
    InvNLE A (sendLessonToUser A env p k i).1 := by
  have h1 := @invNLE_ensureUser A p k env.now hInv
  simp only [sendLessonToUser]
  split
  · split
    · split
      · exact invNLE_setUser h1 (le_refl _)
      · exact h1
    · exact h1
  · split
    · exact invNLE_advance h1
    · exact h1

lemma invNLE_processUsers {A : Assets} {env : Env} :
    ∀ (ks : List String) (p : Progress), InvNLE A p →
      InvNLE A (processUsers A env p ks).1 := by
  intro ks
  induction ks with
  | nil => intro p h; exact h
  | cons k t iht =>
    intro p h
    simp only [processUsers]
    split
    · exact iht p h
    · split
      · exact iht p h
      · split
        · exact iht _ (invNLE_sendLessonToUser h)
        · exact invNLE_sendLessonToUser h

lemma invNLE_onStart {A : Assets} {env : Env} {p : Progress} {k : String}
    (hInv : InvNLE A p) : InvNLE A (onStartCommand A env p k).1 := by
  simp only [onStartCommand]
  split
  · split
    · split
      · exact invNLE_sendLessonToUser (invNLE_ensureUser hInv)
      · exact invNLE_sendLessonToUser (invNLE_ensureUser hInv)
    · exact invNLE_ensureUser hInv
  · split
    · exact hInv
    · exact hInv

/-- C9: every operation that can mutate the subscriber store (registration,
advance, a scheduled or immediate delivery including completion handling,
the resend command, the start command and a whole scheduled tick) preserves
the invariant that each stored currentLesson is between 0 and the total
lesson count (the lower bound holds by the natural-number type). -/
theorem c9_next_lesson_invariant (A : Assets) (env : Env) (p : Progress)
    (k : String) (i n now : Nat) (hInv : InvNLE A p) :
    InvNLE A (ensureUser now p k) ∧
    InvNLE A (advance A now p k i) ∧
    InvNLE A (sendLessonToUser A env p k i).1 ∧
    InvNLE A (onLessonCommand A env p k n).1 ∧
    InvNLE A (onStartCommand A env p k).1 ∧
    InvNLE A (deliverDailyLessons A env p).1 := by
  refine ⟨invNLE_ensureUser hInv, invNLE_advance hInv,
    invNLE_sendLessonToUser hInv, ?_, invNLE_onStart hInv, ?_⟩
  · rw [onLessonCommand_fst]; exact hInv
  · unfold deliverDailyLessons
    exact invNLE_processUsers _ p hInv

/-- Witness for C9 at a concrete one-subscriber store over the one-lesson
curriculum. -/
theorem c9_next_lesson_invariant_witness :
    InvNLE oneLesson (ensureUser 9 [("42", ⟨1, none, 0⟩)] "42") ∧
    InvNLE oneLesson (advance oneLesson 9 [("42", ⟨1, none, 0⟩)] "42" 0) ∧
    InvNLE oneLesson (sendLessonToUser oneLesson (envBase 5) [("42", ⟨1, none, 0⟩)] "42" 0).1 ∧
    InvNLE oneLesson (onLessonCommand oneLesson (envBase 5) [("42", ⟨1, none, 0⟩)] "42" 1).1 ∧
    InvNLE oneLesson (onStartCommand oneLesson (envBase 5) [("42", ⟨1, none, 0⟩)] "42").1 ∧
    InvNLE oneLesson (deliverDailyLessons oneLesson (envBase 5) [("42", ⟨1, none, 0⟩)]).1 :=
  c9_next_lesson_invariant oneLesson (envBase 5) [("42", ⟨1, none, 0⟩)] "42" 0 1 9
    (by intro e he; rw [List.mem_singleton.mp he]; decide)

/-- Counterexample to C6 as stated: a progress file that parses to a JSON
object without a users field is not rejected; startup continues with an
empty users map instead of halting. -/
theorem c6_missing_users_silent_cx :
    startupProgress (FileState.parsed (Json.obj [("foo", Json.num 1)])) =
      Except.ok (Json.obj []) := rfl

/-- C6 amended: startup halts exactly when the progress file exists and its
contents either fail to parse as JSON or parse to something other than a
non-null non-array object; a parsed object whose users field is missing or
unusable is silently repaired to an empty users map and startup continues. -/
theorem c6_startup_halt_amended : ∀ fs, haltsAtStartup fs = shouldHalt fs := by
  intro fs
  cases fs with
  | absent => rfl
  | unparsable => rfl
  | parsed j => cases j <;> rfl

/-- Counterexample to C7 as stated: a supplied array of 100 lesson texts
loads as a curriculum of 99 lessons, not 100, because the loader caps at
the 99-image convention. -/
theorem c7_hundred_lessons_cx :
    (loadLessons (List.replicate 100 ['x'])).map List.length = Except.ok 99 ∧
    (99 : Nat) ≠ 100 :=
  ⟨rfl, by decide⟩

/-- C7 amended: for every supplied lesson-text array with at least
TOTAL_IMAGE_FILES = 99 entries, the loaded curriculum has exactly 99
lessons, the cap being min TOTAL_IMAGE_FILES TOTAL_AUDIO_FILES. -/
theorem c7_ninetynine_amended (data : List (List Char))
    (h : TOTAL_IMAGE_FILES ≤ data.length) :
    (loadLessons data).map List.length = Except.ok TOTAL_IMAGE_FILES := by
  unfold loadLessons
  have hmin : min TOTAL_IMAGE_FILES (min TOTAL_AUDIO_FILES data.length) =
      TOTAL_IMAGE_FILES := by
    unfold TOTAL_IMAGE_FILES TOTAL_AUDIO_FILES at *
    omega
  rw [hmin]
  have hlen : (data.take TOTAL_IMAGE_FILES).length = TOTAL_IMAGE_FILES := by
    rw [List.length_take]
    unfold TOTAL_IMAGE_FILES at *
    omega
  have hne : (data.take TOTAL_IMAGE_FILES).isEmpty = false := by
    cases hc : data.take TOTAL_IMAGE_FILES with
    | nil => rw [hc] at hlen; simp [TOTAL_IMAGE_FILES] at hlen
    | cons a t => rfl
  simp only [hne, Bool.false_eq_true, if_false, Except.map]
  rw [hlen]

/-- Witness for the amended C7 at a concrete 99-entry array. -/
theorem c7_ninetynine_amended_witness :
    (loadLessons (List.replicate 99 ['x'])).map List.length =
      Except.ok TOTAL_IMAGE_FILES :=
  c7_ninetynine_amended (List.replicate 99 ['x']) (by decide)

/-- C10: when the progress file is absent at startup the process starts
normally with an empty users map; absence is a fresh store, not
corruption. -/
theorem c10_absent_file_fresh_store :
    startupProgress FileState.absent = Except.ok (Json.obj []) := rfl

end DailyAsmaBot
